import Mathlib

/-!
Verification of `src/assesment.py`, a one-page PDF → Word converter built on
pdfplumber (extraction) and python-docx (output).  The extraction stage is not
modelled; the pipeline below is a shallow embedding of the composition stages
as functions of the extractor's outputs.  Page coordinates are rationals;
fallible steps (Python `IndexError` propagation) return `Except String _`.
-/

set_option autoImplicit false

namespace Assesment

/-- A positioned word as produced by `page.extract_words(extra_attrs=["fontname", "size"])`.
`fontname` is `Option` because the Python code reads it with `word.get("fontname", "")`. -/
structure Word where
  text : String
  top : ℚ
  bottom : ℚ
  x0 : ℚ
  x1 : ℚ
  fontname : Option String
  size : ℚ
deriving DecidableEq

/-- A reconstructed text line from `page.extract_text_lines()`: only its bounding box
is consumed by the program. -/
structure Line where
  top : ℚ
  bottom : ℚ
  x0 : ℚ
  x1 : ℚ
deriving DecidableEq

/-- The vertical extent handed to `is_line_inside_table` (the Python function only
reads the `top` and `bottom` keys of its `line` dict argument). -/
structure VSpan where
  top : ℚ
  bottom : ℚ
deriving DecidableEq

/-- A table bounding box `(x0, top, x1, bottom)` from `page.find_tables()`. -/
structure BBox where
  x0 : ℚ
  top : ℚ
  x1 : ℚ
  bottom : ℚ
deriving DecidableEq

/-- Paragraph alignment in the output document.  `unset` is python-docx's default
(`alignment is None`), used by the spacing paragraph appended after each table. -/
inductive Alignment where
  | center
  | left
  | unset
deriving DecidableEq

/-- One styled run inside an output paragraph (`p.add_run(...)` plus font settings). -/
structure Run where
  text : String
  bold : Bool
  size : ℚ
  font : String
deriving DecidableEq

/-- An output paragraph: its alignment and its runs. -/
structure Paragraph where
  alignment : Alignment
  runs : List Run
deriving DecidableEq

/-- One cell of a built output table.  `start` is the grid column the cell is
anchored at, `span` how many grid columns it covers after merging.  `boldSet`
is `some b` once the styling loop has set `run.bold = b`; `centered` records
`paragraph.alignment = CENTER` applied by the same loop. -/
structure WCell where
  start : ℕ
  span : ℕ
  text : String
  boldSet : Option Bool
  centered : Bool
deriving DecidableEq

/-- A block-level element of the output document: a paragraph or a table
(given as its rows of merged cells). -/
inductive Block where
  | para (p : Paragraph)
  | table (rows : List (List WCell))
deriving DecidableEq

/-- The output document: the sequence of appended block-level elements. -/
abbrev Docx := List Block

/-- `doc.add_paragraph()` with no arguments: default alignment, no runs. -/
def emptyParagraph : Paragraph := { alignment := Alignment.unset, runs := [] }

/-- `charsStartWith pat l` decides whether `pat` is an initial segment of `l`. -/
def charsStartWith : List Char → List Char → Bool
  | [], _ => true
  | _ :: _, [] => false
  | a :: as, b :: bs => a == b && charsStartWith as bs

/-- `charsContain pat l` decides whether `pat` occurs contiguously inside `l`. -/
def charsContain (pat : List Char) : List Char → Bool
  | [] => charsStartWith pat []
  | b :: bs => charsStartWith pat (b :: bs) || charsContain pat bs

/-- Python's `pat in s` substring test, on the underlying character lists. -/
def strContains (s pat : String) : Bool :=
  charsContain pat.data s.data

/-- `is_bold(word)`: `"Bold" in word.get("fontname", "")`. -/
def is_bold (word : Word) : Bool :=
  strContains (word.fontname.getD "") "Bold"

/-- `is_centered(line, page_center)`: `abs((x0 + x1)/2 - page_center) < 20`. -/
def is_centered (line : Line) (page_center : ℚ) : Bool :=
  decide (|(line.x0 + line.x1) / 2 - page_center| < 20)

/-- `get_words_for_line(line, words, threshold)`: all words whose `top` is within
`threshold` of the line's `top`.  The Python default `threshold=3` is passed
explicitly at the call site in `paragraphStage`. -/
def get_words_for_line (line : Line) (words : List Word) (threshold : ℚ) : List Word :=
  words.filter (fun w => decide (|w.top - line.top| < threshold))

/-- `is_line_inside_table(line, table_bbox, tol)`:
`line["top"] >= top - tol and line["bottom"] <= bottom + tol`.
The Python default `tol=2` is passed explicitly at the call sites. -/
def is_line_inside_table (line : VSpan) (table_bbox : BBox) (tol : ℚ) : Bool :=
  decide (table_bbox.top - tol ≤ line.top) && decide (line.bottom ≤ table_bbox.bottom + tol)

/-- `add_line_paragraph(doc, line, line_words, page_center, font_size, font_name)`:
append one paragraph, centered or left-aligned per `is_centered`, with one run
per word (`word["text"] + " "`, bold per `is_bold`, fixed font size and name). -/
def add_line_paragraph (doc : Docx) (line : Line) (line_words : List Word)
    (page_center : ℚ) (font_size : ℚ) (font_name : String) : Docx :=
  let p : Paragraph :=
    { alignment := if is_centered line page_center then Alignment.center else Alignment.left
      runs := line_words.map (fun word =>
        { text := word.text ++ " ", bold := is_bold word, size := font_size, font := font_name }) }
  doc ++ [Block.para p]

/-- The `for line in lines` loop of `main`: skip lines inside any table bbox
(tolerance 2), skip lines with no matched words (threshold 3), otherwise append
one paragraph via `add_line_paragraph` with font size 11 and Times New Roman. -/
def paragraphStage (words : List Word) (table_bboxes : List BBox) (page_center : ℚ) :
    List Line → Docx → Docx
  | [], doc => doc
  | line :: rest, doc =>
    if table_bboxes.any (fun tb => is_line_inside_table ⟨line.top, line.bottom⟩ tb 2) then
      paragraphStage words table_bboxes page_center rest doc
    else
      let line_words := get_words_for_line line words 3
      if line_words = [] then
        paragraphStage words table_bboxes page_center rest doc
      else
        paragraphStage words table_bboxes page_center rest
          (add_line_paragraph doc line line_words page_center 11 "Times New Roman")

/-- `value = table[r][c] if table[r][c] else None`: a missing cell and an
empty-string cell both collapse to `none`. -/
def normCell : Option String → Option String
  | none => none
  | some s => if s = "" then none else some s

/-- The truthy value the Python cell loop would see at column `c` of `row`
(`none` when the column is out of range, absent, or the empty string). -/
def truthyVal (row : List (Option String)) (c : ℕ) : Option String :=
  match row.get? c with
  | some raw => normCell raw
  | none => none

/-- Whether built cell `x` covers grid column `p` (python-docx resolves
`row.cells[p]` to the merged cell containing position `p`). -/
def coversPos (x : WCell) (p : ℕ) : Bool :=
  decide (x.start ≤ p) && decide (p < x.start + x.span)

/-- `prev_cell.merge(cell)` for `prev_cell = cells[aPos]`, `cell = cells[cPos]`
in the same row: the (still unmerged, empty) anchor at `cPos` disappears and the
cell covering `aPos` is extended to cover through column `cPos`. -/
def mergeCells (cells : List WCell) (aPos cPos : ℕ) : List WCell :=
  (cells.filter (fun x => !(coversPos x cPos))).map
    (fun x => if coversPos x aPos then { x with span := cPos + 1 - x.start } else x)

/-- The styling loop over `table_words`: the first word whose stripped text equals
the stripped cell text sets `run.bold = is_bold(w)` and centers the cell paragraph;
with no match the cell keeps its default styling. -/
def applyStyle (x : WCell) (v : String) (table_words : List Word) : WCell :=
  match table_words.find? (fun w => w.text.trim == v.trim) with
  | some w => { x with boldSet := some (is_bold w), centered := true }
  | none => x

/-- `cell.text = value` followed by the styling loop, at the anchor in column `c`. -/
def setTextAt (cells : List WCell) (c : ℕ) (v : String) (table_words : List Word) : List WCell :=
  cells.map (fun x => if x.start = c then applyStyle { x with text := v } v table_words else x)

/-- The fresh row produced by `doc.add_table`: one empty unit-span cell per column. -/
def initRow (cols : ℕ) : List WCell :=
  (List.range cols).map (fun c => { start := c, span := 1, text := "", boldSet := none, centered := false })

/-- The inner `for c in range(cols)` loop of `add_table_to_doc` on one row, carrying
the cell list and `merge_count`.  Each step reads `table[r][c]` (IndexError when the
row is too short), sets `cell.width = Cm(col_widths[c])` (IndexError when
`col_widths` is too short), then either merges an absent/falsy cell leftward
(only when `c > 0`) or writes and styles the text. -/
def procCols (table_words : List Word) (col_widths : List ℚ) (row : List (Option String)) :
    List ℕ → List WCell → ℕ → Except String (List WCell)
  | [], cells, _ => Except.ok cells
  | c :: rest, cells, merge_count =>
    match row.get? c with
    | none => Except.error "IndexError: row index out of range"
    | some raw =>
      match col_widths.get? c with
      | none => Except.error "IndexError: list index out of range"
      | some _ =>
        match normCell raw with
        | none =>
          if c > 0 then
            procCols table_words col_widths row rest
              (mergeCells cells (c - 1 - merge_count) c) (merge_count + 1)
          else
            procCols table_words col_widths row rest cells merge_count
        | some v =>
          procCols table_words col_widths row rest (setTextAt cells c v table_words) 0

/-- The outer `for r in range(rows)` loop: build each row's cells in turn,
propagating any IndexError. -/
def buildRows (table_words : List Word) (col_widths : List ℚ) (cols : ℕ) :
    List (List (Option String)) → Except String (List (List WCell))
  | [] => Except.ok []
  | row :: rest =>
    match procCols table_words col_widths row (List.range cols) (initRow cols) 0 with
    | Except.error e => Except.error e
    | Except.ok built =>
      match buildRows table_words col_widths cols rest with
      | Except.error e => Except.error e
      | Except.ok others => Except.ok (built :: others)

/-- `add_table_to_doc(doc, table, table_words, col_widths)`: return the document
unchanged when the grid is empty (`if not table: return`); otherwise append the
built table (`cols = len(table[0])`) followed by a spacing `doc.add_paragraph()`.
An IndexError raised while filling cells propagates as `Except.error`. -/
def add_table_to_doc (doc : Docx) (table : List (List (Option String)))
    (table_words : List Word) (col_widths : List ℚ) : Except String Docx :=
  match table with
  | [] => Except.ok doc
  | row0 :: _ =>
    match buildRows table_words col_widths row0.length table with
    | Except.error e => Except.error e
    | Except.ok built => Except.ok (doc ++ [Block.table built, Block.para emptyParagraph])

/-- The `table_words` list built inside `main`'s table loop: for each word (in
extractor order), one copy appended per table bounding box containing the word's
vertical span (tolerance 2).  Note: all bounding boxes, not one table's. -/
def tableWordsFor (words : List Word) (table_bboxes : List BBox) : List Word :=
  match words with
  | [] => []
  | w :: rest =>
    (table_bboxes.filter (fun tb => is_line_inside_table ⟨w.top, w.bottom⟩ tb 2)).map
      (fun _ => w) ++ tableWordsFor rest table_bboxes

/-- The `for table in tables` loop of `main`: each table is added with the same
recomputed `table_words` list and `col_widths=[1, 3, 15]`. -/
def tableStage (words : List Word) (table_bboxes : List BBox) :
    List (List (List (Option String))) → Docx → Except String Docx
  | [], doc => Except.ok doc
  | t :: rest, doc =>
    match add_table_to_doc doc t (tableWordsFor words table_bboxes) [1, 3, 15] with
    | Except.error e => Except.error e
    | Except.ok doc2 => tableStage words table_bboxes rest doc2

/-- The column count of a grid as `add_table_to_doc` computes it: `len(table[0])`
(zero for an empty grid, where the function returns before reading it). -/
def gridCols : List (List (Option String)) → ℕ
  | [] => 0
  | row0 :: _ => row0.length

/-- The observable outcome of a successful `main` run: the built document, the
filename passed to `doc.save`, and the printed completion line. -/
structure MainResult where
  doc : Docx
  savedAs : String
  printed : String
deriving DecidableEq

/-- `main(pdf_path, output_doc)` downstream of extraction: build paragraphs for
non-table lines, then the tables, then `doc.save("word_file3.docx")` and
`print(f"Word document saved: {output_doc}")`.  The extractor's outputs
(`words`, `lines`, `page.width`, `tables`, `table_bboxes`) are the inputs. -/
def mainModel (words : List Word) (lines : List Line) (page_width : ℚ)
    (tables : List (List (List (Option String)))) (table_bboxes : List BBox)
    (output_doc : String) : Except String MainResult :=
  let page_center := page_width / 2
  let doc1 := paragraphStage words table_bboxes page_center lines []
  match tableStage words table_bboxes tables doc1 with
  | Except.error e => Except.error e
  | Except.ok doc2 =>
    Except.ok { doc := doc2, savedAs := "word_file3.docx"
                printed := "Word document saved: " ++ output_doc }

/-- Decidable equality for `Except`, so that concrete runs of the fallible table
builder can be checked by `decide`. -/
instance exceptDecEq {α β : Type} [DecidableEq α] [DecidableEq β] :
    DecidableEq (Except α β) := fun a b =>
  match a, b with
  | Except.ok x, Except.ok y =>
    if h : x = y then isTrue (by rw [h]) else isFalse (by intro hc; cases hc; exact h rfl)
  | Except.error x, Except.error y =>
    if h : x = y then isTrue (by rw [h]) else isFalse (by intro hc; cases hc; exact h rfl)
  | Except.ok _, Except.error _ => isFalse (by intro hc; cases hc)
  | Except.error _, Except.ok _ => isFalse (by intro hc; cases hc)

end Assesment

namespace Assesment

/-! ### Substring test correctness -/

theorem charsStartWith_iff (pat : List Char) : ∀ l : List Char,
    charsStartWith pat l = true ↔ ∃ r, l = pat ++ r := by
  induction pat with
  | nil => intro l; simp [charsStartWith]
  | cons a as ih =>
    intro l
    cases l with
    | nil => simp [charsStartWith]
    | cons b bs =>
      simp only [charsStartWith, Bool.and_eq_true, beq_iff_eq, ih, List.cons_append]
      constructor
      · rintro ⟨hab, r, hr⟩
        exact ⟨r, by rw [hab, hr]⟩
      · rintro ⟨r, hr⟩
        obtain ⟨h1, h2⟩ := List.cons.inj hr
        exact ⟨h1.symm, r, h2⟩

theorem charsContain_iff (pat : List Char) : ∀ l : List Char,
    charsContain pat l = true ↔ ∃ l1 l2, l = l1 ++ pat ++ l2 := by
  intro l
  induction l with
  | nil =>
    simp only [charsContain, charsStartWith_iff]
    constructor
    · rintro ⟨r, hr⟩
      exact ⟨[], r, by simpa using hr⟩
    · rintro ⟨l1, l2, h⟩
      refine ⟨l2, ?_⟩
      rcases l1 with _ | ⟨x, xs⟩
      · simpa using h
      · simp at h
  | cons b bs ih =>
    simp only [charsContain, Bool.or_eq_true, charsStartWith_iff, ih]
    constructor
    · rintro (⟨r, hr⟩ | ⟨l1, l2, h⟩)
      · exact ⟨[], r, by simpa using hr⟩
      · exact ⟨b :: l1, l2, by simp [h]⟩
    · rintro ⟨l1, l2, h⟩
      rcases l1 with _ | ⟨x, xs⟩
      · exact Or.inl ⟨l2, by simpa using h⟩
      · obtain ⟨h1, h2⟩ := List.cons.inj h
        exact Or.inr ⟨xs, l2, h2⟩

/-- Claim C2: a word is classified bold iff the substring "Bold" occurs in its
reported font name (its `fontname`, defaulting to `""` when absent), and the same
classification is applied in the paragraph styling path (each run's `bold` is
`is_bold` of its word) and in the table-cell styling path (a matched word sets the
cell run's `bold` to `is_bold` of that word). -/
theorem spec_c2_bold_classification :
    (∀ w : Word, is_bold w = true ↔
      ∃ l1 l2 : List Char, (w.fontname.getD "").data = l1 ++ "Bold".data ++ l2)
    ∧ (∀ (doc : Docx) (line : Line) (lw : List Word) (pc fs : ℚ) (fn : String), ∃ a,
        add_line_paragraph doc line lw pc fs fn =
          doc ++ [Block.para (Paragraph.mk a (lw.map (fun w =>
            Run.mk (w.text ++ " ") (is_bold w) fs fn)))])
    ∧ (∀ (cells : List WCell) (c : ℕ) (v : String) (tws : List Word) (x : WCell),
        x ∈ setTextAt cells c v tws → x.start = c →
        ∀ w, tws.find? (fun w2 => w2.text.trim == v.trim) = some w →
          x.boldSet = some (is_bold w)) := by
  refine ⟨?_, ?_, ?_⟩
  · intro w
    exact charsContain_iff "Bold".data (w.fontname.getD "").data
  · intro doc line lw pc fs fn
    exact ⟨_, rfl⟩
  · intro cells c v tws x hx hstart w hw
    simp only [setTextAt, List.mem_map] at hx
    obtain ⟨y, hy, hxy⟩ := hx
    by_cases hyc : y.start = c
    · rw [if_pos hyc] at hxy
      rw [← hxy]
      simp [applyStyle, hw]
    · rw [if_neg hyc] at hxy
      rw [← hxy] at hstart
      exact absurd hstart hyc

/-- Concrete check for C2's table path: the word "A" with font name "F-Bold"
matches the cell text "A" and sets the cell's bold flag to `true`. -/
theorem spec_c2_witness :
    (WCell.mk 1 1 "A" (some true) true).boldSet =
      some (is_bold (Word.mk "A" 0 0 0 0 (some "F-Bold") 10)) := by
  refine spec_c2_bold_classification.2.2
    [WCell.mk 1 1 "" none false] 1 "A" [Word.mk "A" 0 0 0 0 (some "F-Bold") 10]
    (WCell.mk 1 1 "A" (some true) true) ?_ rfl
    (Word.mk "A" 0 0 0 0 (some "F-Bold") 10) ?_
  · simp only [setTextAt, applyStyle, List.find?, List.map_cons, List.map_nil]
    simp only [beq_self_eq_true, List.mem_cons]
    left
    decide
  · simp [List.find?]

end Assesment

namespace Assesment

/-! ### Paragraph composition -/

/-- Claim C3: the paragraph emitted for a line is centered iff the distance between
the line's horizontal midpoint and half the page width is strictly below 20;
otherwise it is left-aligned, and no other alignment occurs. -/
theorem spec_c3_alignment (doc : Docx) (line : Line) (lw : List Word)
    (page_width fs : ℚ) (fn : String) :
    ∃ p : Paragraph,
      add_line_paragraph doc line lw (page_width / 2) fs fn = doc ++ [Block.para p]
      ∧ (p.alignment = Alignment.center ↔ |(line.x0 + line.x1) / 2 - page_width / 2| < 20)
      ∧ (p.alignment = Alignment.center ∨ p.alignment = Alignment.left) := by
  refine ⟨_, rfl, ?_, ?_⟩
  · by_cases h : |(line.x0 + line.x1) / 2 - page_width / 2| < 20
    · simp [is_centered, h]
    · simp [is_centered, h]
  · by_cases h : |(line.x0 + line.x1) / 2 - page_width / 2| < 20
    · simp [is_centered, h]
    · simp [is_centered, h]

theorem paragraphStage_append (words : List Word) (bbs : List BBox) (pc : ℚ) :
    ∀ (ls : List Line) (doc : Docx),
      paragraphStage words bbs pc ls doc = doc ++ paragraphStage words bbs pc ls [] := by
  intro ls
  induction ls with
  | nil => intro doc; simp [paragraphStage]
  | cons line rest ih =>
    intro doc
    by_cases hin : (bbs.any fun tb => is_line_inside_table ⟨line.top, line.bottom⟩ tb 2) = true
    · simp only [paragraphStage, hin, if_true]
      exact ih doc
    · simp only [paragraphStage, hin, Bool.false_eq_true, if_false]
      by_cases hw : get_words_for_line line words 3 = []
      · simp only [hw, if_true]
        exact ih doc
      · simp only [hw, if_false]
        rw [ih (add_line_paragraph doc line (get_words_for_line line words 3) pc 11 "Times New Roman")]
        rw [ih (add_line_paragraph [] line (get_words_for_line line words 3) pc 11 "Times New Roman")]
        simp [add_line_paragraph]

/-- Claim C6: a line whose vertical extent lies inside some table bounding box
(tolerance 2 on both bounds) contributes no paragraph: dropping all such lines
leaves the paragraph stage's output unchanged. -/
theorem spec_c6_table_lines_skipped (words : List Word) (bbs : List BBox) (pc : ℚ) :
    ∀ (lines : List Line) (doc : Docx),
      paragraphStage words bbs pc lines doc =
        paragraphStage words bbs pc
          (lines.filter fun l =>
            !(bbs.any fun tb => is_line_inside_table ⟨l.top, l.bottom⟩ tb 2)) doc := by
  intro lines
  induction lines with
  | nil => intro doc; rfl
  | cons line rest ih =>
    intro doc
    by_cases hin : (bbs.any fun tb => is_line_inside_table ⟨line.top, line.bottom⟩ tb 2) = true
    · rw [List.filter_cons_of_neg (by simp [hin])]
      simp only [paragraphStage, hin, if_true]
      exact ih doc
    · rw [List.filter_cons_of_pos (by simp [hin])]
      simp only [paragraphStage, hin, Bool.false_eq_true, if_false]
      by_cases hw : get_words_for_line line words 3 = []
      · simp only [hw, if_true]
        exact ih doc
      · simp only [hw, if_false]
        exact ih _

/-- Claim C7: for a line outside every table bounding box, the paragraph stage
emits no paragraph when no word's top matches the line's top within the threshold,
and exactly one paragraph otherwise, with one run per matched word — the word's
text plus a trailing space — in the extractor's word order. -/
theorem spec_c7_one_paragraph_per_line (words : List Word) (bbs : List BBox) (pc : ℚ)
    (line : Line)
    (hout : (bbs.any fun tb => is_line_inside_table ⟨line.top, line.bottom⟩ tb 2) = false) :
    (get_words_for_line line words 3 = [] →
      ∀ (rest : List Line) (doc : Docx),
        paragraphStage words bbs pc (line :: rest) doc = paragraphStage words bbs pc rest doc)
    ∧ (get_words_for_line line words 3 ≠ [] →
      ∀ (rest : List Line) (doc : Docx),
        paragraphStage words bbs pc (line :: rest) doc =
          doc ++ [Block.para (Paragraph.mk
            (if is_centered line pc then Alignment.center else Alignment.left)
            ((get_words_for_line line words 3).map (fun w =>
              Run.mk (w.text ++ " ") (is_bold w) 11 "Times New Roman")))]
            ++ paragraphStage words bbs pc rest []) := by
  constructor
  · intro hw rest doc
    simp only [paragraphStage, hout, Bool.false_eq_true, if_false, hw, if_true]
  · intro hw rest doc
    simp only [paragraphStage, hout, Bool.false_eq_true, if_false, hw, if_false]
    rw [paragraphStage_append words bbs pc rest]
    simp [add_line_paragraph]

/-- Concrete check for C7: one line with one matching word produces exactly that
one paragraph. -/
theorem spec_c7_witness :
    paragraphStage [Word.mk "hi" 0 1 0 10 (some "F") 10] [] 0 [Line.mk 0 1 0 0] [] =
      [Block.para (Paragraph.mk Alignment.center
        [Run.mk "hi " false 11 "Times New Roman"])] := by
  have h := (spec_c7_one_paragraph_per_line
      [Word.mk "hi" 0 1 0 10 (some "F") 10] [] 0 (Line.mk 0 1 0 0) rfl).2
    (by simp [get_words_for_line, List.filter, sub_zero, abs_zero, zero_lt_three])
    [] []
  rw [h]
  norm_num [get_words_for_line, List.filter, is_centered, is_bold, strContains,
    charsContain, charsStartWith, paragraphStage]
  decide

end Assesment

namespace Assesment

/-! ### Table building -/

theorem applyStyle_start (x : WCell) (v : String) (tws : List Word) :
    (applyStyle x v tws).start = x.start := by
  unfold applyStyle
  split <;> rfl

theorem applyStyle_text (x : WCell) (v : String) (tws : List Word) :
    (applyStyle x v tws).text = x.text := by
  unfold applyStyle
  split <;> rfl

theorem mem_mergeCells (cells : List WCell) (a c : ℕ) (x : WCell) :
    x ∈ mergeCells cells a c → ∃ y ∈ cells, x.start = y.start ∧ x.text = y.text := by
  intro hx
  simp only [mergeCells, List.mem_map, List.mem_filter] at hx
  obtain ⟨y, ⟨hy, _⟩, hxy⟩ := hx
  refine ⟨y, hy, ?_⟩
  by_cases hcov : coversPos y a = true
  · rw [if_pos hcov] at hxy
    rw [← hxy]
    exact ⟨rfl, rfl⟩
  · rw [if_neg hcov] at hxy
    rw [← hxy]
    exact ⟨rfl, rfl⟩

theorem mem_setTextAt (cells : List WCell) (c : ℕ) (v : String) (tws : List Word) (x : WCell) :
    x ∈ setTextAt cells c v tws →
      (∃ y ∈ cells, x.start = y.start ∧ x.text = y.text) ∨ (x.start = c ∧ x.text = v) := by
  intro hx
  simp only [setTextAt, List.mem_map] at hx
  obtain ⟨y, hy, hxy⟩ := hx
  by_cases hyc : y.start = c
  · right
    rw [if_pos hyc] at hxy
    rw [← hxy]
    exact ⟨(applyStyle_start _ _ _).trans hyc, applyStyle_text _ _ _⟩
  · left
    rw [if_neg hyc] at hxy
    rw [← hxy]
    exact ⟨y, hy, rfl, rfl⟩

theorem procCols_inv (tws : List Word) (ws : List ℚ) (row : List (Option String)) :
    ∀ (cs : List ℕ) (cells : List WCell) (mc : ℕ) (out : List WCell),
      procCols tws ws row cs cells mc = Except.ok out →
      (∀ x ∈ cells, x.text = "" ∨ truthyVal row x.start = some x.text) →
      ∀ x ∈ out, x.text = "" ∨ truthyVal row x.start = some x.text := by
  intro cs
  induction cs with
  | nil =>
    intro cells mc out h hinv
    simp only [procCols, Except.ok.injEq] at h
    rw [← h]
    exact hinv
  | cons c rest ih =>
    intro cells mc out h hinv
    cases hraw : row.get? c with
    | none =>
      simp only [procCols, hraw] at h
      exact Except.noConfusion h
    | some raw =>
      cases hwv : ws.get? c with
      | none =>
        simp only [procCols, hraw, hwv] at h
        exact Except.noConfusion h
      | some wv =>
        cases hnc : normCell raw with
        | none =>
          simp only [procCols, hraw, hwv, hnc] at h
          by_cases h0 : c > 0
          · rw [if_pos h0] at h
            refine ih _ _ _ h ?_
            intro x hx
            obtain ⟨y, hy, hs, ht⟩ := mem_mergeCells _ _ _ _ hx
            rcases hinv y hy with h1 | h2
            · exact Or.inl (ht.trans h1)
            · right
              rw [hs, ht]
              exact h2
          · rw [if_neg h0] at h
            exact ih _ _ _ h hinv
        | some v =>
          simp only [procCols, hraw, hwv, hnc] at h
          refine ih _ _ _ h ?_
          intro x hx
          rcases mem_setTextAt _ _ _ _ _ hx with ⟨y, hy, hs, ht⟩ | ⟨hs, ht⟩
          · rcases hinv y hy with h1 | h2
            · exact Or.inl (ht.trans h1)
            · right
              rw [hs, ht]
              exact h2
          · right
            rw [hs, ht]
            simp only [truthyVal, hraw, hnc]

/-- Claim C4 (amended): a cell whose stored value is absent or falsy is never
rendered with its own text — every built cell carrying non-empty text holds
exactly the truthy value of its anchor column — and on the row
`[null, "A", null, "B"]` the builder produces an untouched empty cell in
column 0, "A" spanning columns 1–2, and "B" occupying column 3 alone
(2 populated visual cells). -/
theorem spec_c4_amended :
    (∀ (tws : List Word) (ws : List ℚ) (row : List (Option String)) (cols : ℕ)
        (out : List WCell),
      procCols tws ws row (List.range cols) (initRow cols) 0 = Except.ok out →
      ∀ x ∈ out, x.text ≠ "" → truthyVal row x.start = some x.text)
    ∧ add_table_to_doc [] [[none, some "A", none, some "B"]] [] [1, 1, 1, 1] =
        Except.ok [Block.table [[WCell.mk 0 1 "" none false, WCell.mk 1 2 "A" none false,
          WCell.mk 3 1 "B" none false]], Block.para emptyParagraph] := by
  constructor
  · intro tws ws row cols out h x hx hne
    have hinit : ∀ y ∈ initRow cols, y.text = "" ∨ truthyVal row y.start = some y.text := by
      intro y hy
      left
      simp only [initRow, List.mem_map] at hy
      obtain ⟨c, _, hc⟩ := hy
      rw [← hc]
    rcases procCols_inv tws ws row (List.range cols) (initRow cols) 0 out h hinit x hx with
      h1 | h2
    · exact absurd h1 hne
    · exact h2
  · decide

/-- Counterexample to C4 as stated: on the row `[null, "A", null, "B"]` the code
does NOT make "A" span columns 0–1 (the null in column 0 is never merged, since
merging requires `c > 0`); "A" is anchored at column 1 with span 2 and "B" at
column 3 with span 1. -/
theorem spec_c4_counterexample :
    add_table_to_doc [] [[none, some "A", none, some "B"]] [] [1, 1, 1, 1] =
      Except.ok [Block.table [[WCell.mk 0 1 "" none false, WCell.mk 1 2 "A" none false,
        WCell.mk 3 1 "B" none false]], Block.para emptyParagraph]
    ∧ (∀ x ∈ [WCell.mk 0 1 "" none false, WCell.mk 1 2 "A" none false,
        WCell.mk 3 1 "B" none false], ¬(x.text = "A" ∧ x.start = 0 ∧ x.span = 2)) := by
  constructor
  · decide
  · decide

/-- Concrete check for C4 (amended): a one-cell row with the truthy value "X"
yields a cell whose text is that column's truthy value. -/
theorem spec_c4_witness : truthyVal [some "X"] 0 = some "X" :=
  spec_c4_amended.1 [] [1] [some "X"] 1 [WCell.mk 0 1 "X" none false]
    (by decide) (WCell.mk 0 1 "X" none false) (by decide) (by decide)

/-- Claim C10: an empty grid leaves the document completely unchanged — no table
block and no trailing spacing paragraph is appended. -/
theorem spec_c10_empty_table_noop (doc : Docx) (tws : List Word) (ws : List ℚ) :
    add_table_to_doc doc [] tws ws = Except.ok doc := rfl

theorem normCell_idem (o : Option String) : normCell (normCell o) = normCell o := by
  cases o with
  | none => rfl
  | some s =>
    by_cases h : s = "" <;> simp [normCell, h]

theorem procCols_normCell (tws : List Word) (ws : List ℚ) (row : List (Option String)) :
    ∀ (cs : List ℕ) (cells : List WCell) (mc : ℕ),
      procCols tws ws row cs cells mc =
        procCols tws ws (row.map normCell) cs cells mc := by
  intro cs
  induction cs with
  | nil => intro cells mc; rfl
  | cons c rest ih =>
    intro cells mc
    cases hraw : row.get? c with
    | none =>
      have hraw2 : (row.map normCell).get? c = none := by
        rw [List.get?_map, hraw]
        rfl
      simp only [procCols, hraw, hraw2]
    | some raw =>
      have hraw2 : (row.map normCell).get? c = some (normCell raw) := by
        rw [List.get?_map, hraw]
        rfl
      simp only [procCols, hraw, hraw2, normCell_idem]
      cases hwv : ws.get? c with
      | none => simp only [hwv]
      | some wv =>
        simp only [hwv]
        cases hnc : normCell raw with
        | none =>
          simp only [hnc]
          by_cases h0 : c > 0
          · rw [if_pos h0, if_pos h0]
            exact ih _ _
          · rw [if_neg h0, if_neg h0]
            exact ih _ _
        | some v =>
          simp only [hnc]
          exact ih _ _

theorem buildRows_normCell (tws : List Word) (ws : List ℚ) (cols : ℕ) :
    ∀ table : List (List (Option String)),
      buildRows tws ws cols table =
        buildRows tws ws cols (table.map (List.map normCell)) := by
  intro table
  induction table with
  | nil => rfl
  | cons row rest ih =>
    simp only [List.map_cons, buildRows]
    rw [← procCols_normCell, ← ih]

/-- Claim C9: the table builder treats an empty-string cell exactly like an
absent cell — normalising every falsy cell to `null` leaves the output
unchanged — so, in particular, `["A", ""]` builds the same merged row as
`["A", null]`: "A" spanning both columns. -/
theorem spec_c9_empty_string_as_absent :
    (∀ (doc : Docx) (table : List (List (Option String))) (tws : List Word) (ws : List ℚ),
      add_table_to_doc doc table tws ws =
        add_table_to_doc doc (table.map (List.map normCell)) tws ws)
    ∧ add_table_to_doc [] [[some "A", some ""]] [] [1, 1] =
        add_table_to_doc [] [[some "A", none]] [] [1, 1]
    ∧ add_table_to_doc [] [[some "A", some ""]] [] [1, 1] =
        Except.ok [Block.table [[WCell.mk 0 2 "A" none false]], Block.para emptyParagraph] := by
  refine ⟨?_, by decide, by decide⟩
  intro doc table tws ws
  cases table with
  | nil => rfl
  | cons row0 rest =>
    simp only [List.map_cons, add_table_to_doc]
    rw [List.length_map]
    rw [← List.map_cons, ← buildRows_normCell]

end Assesment

namespace Assesment

/-! ### Column-width indexing (C8) -/

theorem procCols_width_err (tws : List Word) (ws : List ℚ) (row : List (Option String)) :
    ∀ (cs : List ℕ) (cells : List WCell) (mc : ℕ),
      (∀ c ∈ cs, c < row.length) → (∃ c ∈ cs, ws.length ≤ c) →
      procCols tws ws row cs cells mc =
        Except.error "IndexError: list index out of range" := by
  intro cs
  induction cs with
  | nil =>
    intro cells mc _ hex
    simp at hex
  | cons c rest ih =>
    intro cells mc hall hex
    have hc : c < row.length := hall c (List.mem_cons_self c rest)
    obtain ⟨raw, hraw⟩ : ∃ raw, row.get? c = some raw := by
      rw [List.get?_eq_get hc]
      exact ⟨_, rfl⟩
    by_cases hwc : ws.length ≤ c
    · have hwn : ws.get? c = none := List.get?_eq_none.2 hwc
      simp only [procCols, hraw, hwn]
    · push_neg at hwc
      obtain ⟨wv, hwv⟩ : ∃ wv, ws.get? c = some wv := by
        rw [List.get?_eq_get hwc]
        exact ⟨_, rfl⟩
      have hall2 : ∀ c2 ∈ rest, c2 < row.length :=
        fun c2 h2 => hall c2 (List.mem_cons_of_mem _ h2)
      have hex2 : ∃ c2 ∈ rest, ws.length ≤ c2 := by
        obtain ⟨c2, hc2, hle⟩ := hex
        rcases List.mem_cons.1 hc2 with h | h
        · subst h
          omega
        · exact ⟨c2, h, hle⟩
      cases hnc : normCell raw with
      | none =>
        simp only [procCols, hraw, hwv, hnc]
        by_cases h0 : c > 0
        · rw [if_pos h0]
          exact ih _ _ hall2 hex2
        · rw [if_neg h0]
          exact ih _ _ hall2 hex2
      | some v =>
        simp only [procCols, hraw, hwv, hnc]
        exact ih _ _ hall2 hex2

theorem procCols_ok_of_inbounds (tws : List Word) (ws : List ℚ) (row : List (Option String)) :
    ∀ (cs : List ℕ) (cells : List WCell) (mc : ℕ),
      (∀ c ∈ cs, c < row.length ∧ c < ws.length) →
      ∃ out, procCols tws ws row cs cells mc = Except.ok out := by
  intro cs
  induction cs with
  | nil =>
    intro cells mc _
    exact ⟨cells, rfl⟩
  | cons c rest ih =>
    intro cells mc hall
    obtain ⟨hcr, hcw⟩ := hall c (List.mem_cons_self c rest)
    obtain ⟨raw, hraw⟩ : ∃ raw, row.get? c = some raw := by
      rw [List.get?_eq_get hcr]
      exact ⟨_, rfl⟩
    obtain ⟨wv, hwv⟩ : ∃ wv, ws.get? c = some wv := by
      rw [List.get?_eq_get hcw]
      exact ⟨_, rfl⟩
    have hall2 : ∀ c2 ∈ rest, c2 < row.length ∧ c2 < ws.length :=
      fun c2 h2 => hall c2 (List.mem_cons_of_mem _ h2)
    cases hnc : normCell raw with
    | none =>
      by_cases h0 : c > 0
      · obtain ⟨out, hout⟩ := ih (mergeCells cells (c - 1 - mc) c) (mc + 1) hall2
        refine ⟨out, ?_⟩
        simp only [procCols, hraw, hwv, hnc]
        rw [if_pos h0]
        exact hout
      · obtain ⟨out, hout⟩ := ih cells mc hall2
        refine ⟨out, ?_⟩
        simp only [procCols, hraw, hwv, hnc]
        rw [if_neg h0]
        exact hout
    | some v =>
      obtain ⟨out, hout⟩ := ih (setTextAt cells c v tws) 0 hall2
      refine ⟨out, ?_⟩
      simp only [procCols, hraw, hwv, hnc]
      exact hout

theorem buildRows_err_head (tws : List Word) (ws : List ℚ) (cols : ℕ)
    (row : List (Option String)) (rest : List (List (Option String))) (e : String) :
    procCols tws ws row (List.range cols) (initRow cols) 0 = Except.error e →
    buildRows tws ws cols (row :: rest) = Except.error e := by
  intro h
  simp only [buildRows, h]

theorem buildRows_ok_of_all (tws : List Word) (ws : List ℚ) (cols : ℕ) :
    ∀ table : List (List (Option String)),
      (∀ row ∈ table,
        ∃ out, procCols tws ws row (List.range cols) (initRow cols) 0 = Except.ok out) →
      ∃ outs, buildRows tws ws cols table = Except.ok outs := by
  intro table
  induction table with
  | nil =>
    intro _
    exact ⟨[], rfl⟩
  | cons row rest ih =>
    intro hall
    obtain ⟨out, hout⟩ := hall row (List.mem_cons_self _ _)
    obtain ⟨outs, houts⟩ := ih (fun r hr => hall r (List.mem_cons_of_mem _ hr))
    exact ⟨out :: outs, by simp only [buildRows, hout, houts]⟩

/-- Claim C8: a non-empty grid with more columns than the supplied column-width
list makes the table builder fail with an out-of-range indexing error (the width
lookup `col_widths[c]`), while a grid whose column count fits inside the width
list (and whose rows all have that column count) builds without such an error. -/
theorem spec_c8_width_index_error :
    (∀ (doc : Docx) (row0 : List (Option String)) (rest : List (List (Option String)))
        (tws : List Word) (ws : List ℚ),
      ws.length < row0.length →
      add_table_to_doc doc (row0 :: rest) tws ws =
        Except.error "IndexError: list index out of range")
    ∧ (∀ (doc : Docx) (table : List (List (Option String))) (tws : List Word) (ws : List ℚ),
      (∀ row ∈ table, row.length = gridCols table) → gridCols table ≤ ws.length →
      ∃ d, add_table_to_doc doc table tws ws = Except.ok d) := by
  constructor
  · intro doc row0 rest tws ws hlt
    have herr : procCols tws ws row0 (List.range row0.length) (initRow row0.length) 0 =
        Except.error "IndexError: list index out of range" := by
      refine procCols_width_err tws ws row0 _ _ _ ?_ ?_
      · intro c hc
        exact List.mem_range.1 hc
      · exact ⟨ws.length, List.mem_range.2 hlt, le_refl _⟩
    simp only [add_table_to_doc, buildRows_err_head tws ws row0.length row0 rest _ herr]
  · intro doc table tws ws hrect hle
    cases table with
    | nil => exact ⟨doc, rfl⟩
    | cons row0 rest =>
      have hall : ∀ row ∈ row0 :: rest,
          ∃ out, procCols tws ws row (List.range row0.length) (initRow row0.length) 0 =
            Except.ok out := by
        intro row hrow
        refine procCols_ok_of_inbounds tws ws row _ _ _ ?_
        intro c hc
        have h1 := List.mem_range.1 hc
        have h2 : row.length = row0.length := hrect row hrow
        have h3 : row0.length ≤ ws.length := hle
        constructor <;> omega
      obtain ⟨outs, houts⟩ := buildRows_ok_of_all tws ws row0.length (row0 :: rest) hall
      exact ⟨doc ++ [Block.table outs, Block.para emptyParagraph],
        by simp only [add_table_to_doc, houts]⟩

/-- Concrete check for C8: a 4-column row with a 3-entry width list fails with the
width indexing error, and a 1-column grid with the same width list succeeds. -/
theorem spec_c8_witness :
    add_table_to_doc [] [[none, none, none, none]] [] [1, 1, 1] =
      Except.error "IndexError: list index out of range"
    ∧ ∃ d, add_table_to_doc [] [[some "x"]] [] [1, 1, 1] = Except.ok d := by
  constructor
  · exact spec_c8_width_index_error.1 [] [none, none, none, none] [] [] [1, 1, 1] (by decide)
  · exact spec_c8_width_index_error.2 [] [[some "x"]] [] [1, 1, 1] (by decide) (by decide)

/-! ### Orchestration (C1, C5) -/

/-- Claim C1: whenever `main` completes, the document is saved under the fixed
filename "word_file3.docx" regardless of the `output_doc` argument, and the one
completion line printed after the save references the requested (unused) output
name instead of the saved filename. -/
theorem spec_c1_fixed_save_filename (words : List Word) (lines : List Line)
    (page_width : ℚ) (tables : List (List (List (Option String))))
    (table_bboxes : List BBox) (output_doc : String) (res : MainResult) :
    mainModel words lines page_width tables table_bboxes output_doc = Except.ok res →
    res.savedAs = "word_file3.docx"
      ∧ res.printed = "Word document saved: " ++ output_doc := by
  intro h
  simp only [mainModel] at h
  cases htab : tableStage words table_bboxes tables
      (paragraphStage words table_bboxes (page_width / 2) lines []) with
  | error e =>
    rw [htab] at h
    exact Except.noConfusion h
  | ok d =>
    rw [htab] at h
    cases h
    exact ⟨rfl, rfl⟩

/-- Concrete check for C1: with empty extractor outputs and requested output
name "out.docx", the file is saved as "word_file3.docx" while the completion
line echoes "out.docx". -/
theorem spec_c1_witness :
    (MainResult.mk [] "word_file3.docx" "Word document saved: out.docx").savedAs =
      "word_file3.docx"
    ∧ (MainResult.mk [] "word_file3.docx" "Word document saved: out.docx").printed =
      "Word document saved: " ++ "out.docx" :=
  spec_c1_fixed_save_filename [] [] 0 [] [] "out.docx"
    (MainResult.mk [] "word_file3.docx" "Word document saved: out.docx") rfl

/-- Counterexample to C5 as stated: the word list built for a table is not that
one table's subset, and words are not unique in it.  With two table bounding
boxes, the word "X" (inside only the second box) is in the list passed for the
first table even though it lies outside the first box; and a word "Y" inside
both boxes appears twice in the list. -/
theorem spec_c5_counterexample :
    tableWordsFor [Word.mk "X" 60 62 0 10 (some "F") 10]
        [BBox.mk 0 0 100 10, BBox.mk 0 50 100 70] =
      [Word.mk "X" 60 62 0 10 (some "F") 10]
    ∧ is_line_inside_table (VSpan.mk 60 62) (BBox.mk 0 0 100 10) 2 = false
    ∧ tableWordsFor [Word.mk "Y" 6 8 0 10 (some "F") 10]
        [BBox.mk 0 0 100 10, BBox.mk 0 5 100 60] =
      [Word.mk "Y" 6 8 0 10 (some "F") 10, Word.mk "Y" 6 8 0 10 (some "F") 10] := by
  refine ⟨?_, ?_, ?_⟩ <;>
    norm_num [tableWordsFor, is_line_inside_table, List.filter]

theorem count_map_const (l : List BBox) (a b : Word) :
    ((l.map (fun _ => b)).count a) = if a = b then l.length else 0 := by
  induction l with
  | nil => simp
  | cons x xs ih =>
    simp only [List.map_cons, List.count_cons, ih, beq_iff_eq]
    by_cases h : a = b
    · simp [h]
    · simp [h, Ne.symm h]

/-- Claim C5 (amended): the word list recomputed in `main`'s table loop is the
same for every table: it holds one occurrence of a word per table bounding box
(of any table) containing the word's vertical span, so a word belongs to it iff
it is inside at least one table's bounding box, with multiplicity the number of
containing boxes. -/
theorem spec_c5_amended (words : List Word) (bbs : List BBox) (w : Word) :
    (tableWordsFor words bbs).count w =
      words.count w * bbs.countP (fun tb => is_line_inside_table ⟨w.top, w.bottom⟩ tb 2)
    ∧ (w ∈ tableWordsFor words bbs ↔
        w ∈ words ∧ ∃ tb ∈ bbs, is_line_inside_table ⟨w.top, w.bottom⟩ tb 2 = true) := by
  constructor
  · induction words with
    | nil => simp [tableWordsFor]
    | cons w0 rest ih =>
      simp only [tableWordsFor, List.count_append, List.count_cons, ih, count_map_const,
        beq_iff_eq]
      by_cases h : w = w0
      · subst h
        simp [List.countP_eq_length_filter]
        ring
      · simp [h, Ne.symm h]
  · induction words with
    | nil => simp [tableWordsFor]
    | cons w0 rest ih =>
      simp only [tableWordsFor, List.mem_append, List.mem_map, List.mem_filter,
        List.mem_cons, ih]
      constructor
      · rintro (⟨tb, ⟨htb, hin⟩, rfl⟩ | ⟨hmem, tb, htb, hin⟩)
        · exact ⟨Or.inl rfl, tb, htb, hin⟩
        · exact ⟨Or.inr hmem, tb, htb, hin⟩
      · rintro ⟨rfl | hmem, tb, htb, hin⟩
        · exact Or.inl ⟨tb, ⟨htb, hin⟩, rfl⟩
        · exact Or.inr ⟨hmem, tb, htb, hin⟩

end Assesment
